import Mathlib

/-!
Verification of the `banks_project.py` ETL pipeline (extract / transform /
load_to_csv / load_to_db) against its specification.

The embedding models a pandas `DataFrame` as an ordered list of column names
together with an ordered list of rows (each row a list of cell values, one per
column).  Cell values are either strings or exact rationals (`ℚ` stands for the
numeric values the script manipulates).  Fallible operations return `Except`,
and functions that write progress log lines return the list of messages they
emit, in order.
-/

namespace Banks

/-- A single cell of a data frame: either text or a number
(numbers are modelled exactly, as rationals). -/
inductive Value where
  | str (s : String)
  | num (q : ℚ)
deriving DecidableEq

/-- A pandas data frame: ordered column names and ordered rows.
Each row lists its cells in column order. -/
structure DataFrame where
  columns : List String
  rows : List (List Value)
deriving DecidableEq

/-- Well-formedness of a data frame: every row has one cell per column. -/
def Wf (df : DataFrame) : Prop :=
  ∀ r ∈ df.rows, r.length = df.columns.length

instance (df : DataFrame) : Decidable (Wf df) :=
  List.decidableBAll _ _

/-- Index of a column name in a column list (leftmost match),
modelling positional access to a named pandas column. -/
def colIdx : List String → String → Option Nat
  | [], _ => none
  | c :: cs, n => if c = n then some 0 else (colIdx cs n).map (· + 1)

/-- The cell of row `k` in the column called `name`, when both exist. -/
def colCell (df : DataFrame) (name : String) (k : Nat) : Option Value :=
  match colIdx df.columns name with
  | none => none
  | some j =>
    match df.rows[k]? with
    | none => none
    | some r => r[j]?

/-- Lookup in the exchange-rate dictionary built by
`exchange_rates.set_index("Currency").to_dict()["Rate"]` (line 63 of
`banks_project.py`): a Python dict built by successive insertion, so the
last occurrence of a currency code wins. -/
def lookupRate (rates : List (String × ℚ)) (c : String) : Option ℚ :=
  rates.foldl (fun acc p => if p.1 = c then some p.2 else acc) none

/-- Round to the nearest integer, ties to even — the rounding applied by
`round(series, 2)` on lines 66-68 (numpy `rint` semantics after scaling). -/
def roundHalfEven (x : ℚ) : ℤ :=
  if Int.fract x < 1 / 2 then ⌊x⌋
  else if 1 / 2 < Int.fract x then ⌊x⌋ + 1
  else if ⌊x⌋ % 2 = 0 then ⌊x⌋ else ⌊x⌋ + 1

/-- `round(x, 2)` as used on lines 66-68: scale by 100, round to the nearest
integer with ties to even, scale back. -/
def round2 (q : ℚ) : ℚ := (roundHalfEven (q * 100) : ℚ) / 100

/-- The USD market-cap column accessed by `transform` (lines 66-68). -/
def mcColName : String := "Market cap (US$ billion)"

/-- The ways `transform` can raise: `KeyError` on a missing data-frame column,
`KeyError` on a missing currency code in the rate dict, and the `TypeError`
pandas raises when multiplying a non-numeric column by a float. -/
inductive TransformError where
  | missingColumn
  | missingRate
  | typeError
deriving DecidableEq

/-- Numeric payload of a cell, if it is numeric. -/
def numCell : Value → Option ℚ
  | .num q => some q
  | .str _ => none

/-- The full column at position `j`, provided every row has a numeric cell
there (pandas raises when multiplying a non-numeric column by a rate). -/
def getNumCol (df : DataFrame) (j : Nat) : Option (List ℚ) :=
  df.rows.mapM (fun r => (r[j]?).bind numCell)

/-- `df.assign(name=vals)` (lines 65-69): overwrite the column in place if a
column of that name exists, otherwise append it as the new last column. -/
def assignCol (df : DataFrame) (name : String) (vals : List Value) : DataFrame :=
  match colIdx df.columns name with
  | some j => ⟨df.columns, List.zipWith (fun r v => r.set j v) df.rows vals⟩
  | none => ⟨df.columns ++ [name], List.zipWith (fun r v => r ++ [v]) df.rows vals⟩

/-- One keyword of the `df.assign(...)` call on lines 65-69: evaluate
`lambda x: round(x["Market cap (US$ billion)"] * rates_dict[cur], 2)` against
the current frame and assign the result to column `newName`.  Failure order
follows Python evaluation order: the column subscript is evaluated first
(`KeyError` on the frame), then the rate subscript (`KeyError` on the dict),
then the multiplication (`TypeError` on non-numeric cells). -/
def convertStep (rates : List (String × ℚ)) (cur newName : String)
    (df : DataFrame) : Except TransformError DataFrame :=
  match colIdx df.columns mcColName with
  | none => .error .missingColumn
  | some j =>
    match lookupRate rates cur with
    | none => .error .missingRate
    | some r =>
      match getNumCol df j with
      | none => .error .typeError
      | some vs =>
        .ok (assignCol df newName (vs.map (fun v => Value.num (round2 (v * r)))))

/-- `transform` (lines 47-71), with the exchange-rate CSV already read into
`rates`: assign `MC_GBP_Billion`, then `MC_EUR_Billion`, then `MC_INR_Billion`,
in the keyword order of the `assign` call. -/
def transform (df : DataFrame) (rates : List (String × ℚ)) :
    Except TransformError DataFrame :=
  (convertStep rates "GBP" "MC_GBP_Billion" df).bind fun d1 =>
    (convertStep rates "EUR" "MC_EUR_Billion" d1).bind fun d2 =>
      convertStep rates "INR" "MC_INR_Billion" d2

/-! ## The extractor (`extract`, lines 26-44) -/

/-- An HTML `table` element: its attributes (an attribute name may occur
several times, as the multi-valued `class` attribute does) and the tabular
data that `pd.read_html` recovers from it. -/
structure TableElem where
  attrs : List (String × String)
  data : DataFrame
deriving DecidableEq

/-- The parsed HTML document: its `table` elements in document order. -/
def Html := List TableElem

/-- An HTTP response: status code and parsed body. -/
structure HttpResponse where
  status : Nat
  body : Html

/-- The ways `extract` can raise: a network failure in `requests.get`, a
`raise_for_status` error on a 4xx/5xx reply, and the `ValueError` of
`pd.read_html` when `soup.find` returned `None`. -/
inductive ExtractError where
  | transport
  | httpStatus
  | parse
deriving DecidableEq

/-- Default attribute filter installed by `if not table_attribs:` (lines
35-36). -/
def defaultAttribs : List (String × String) := [("class", "wikitable")]

/-- Resolution of the `table_attribs` argument (lines 35-36): Python's
`if not table_attribs:` treats both `None` and the empty dict as falsy. -/
def resolveAttribs : Option (List (String × String)) → List (String × String)
  | none => defaultAttribs
  | some [] => defaultAttribs
  | some l => l

/-- `BeautifulSoup.find("table", attrs=f)` match test: every filter pair must
occur among the element's attribute pairs. -/
def matchesAttribs (t : TableElem) (f : List (String × String)) : Bool :=
  f.all (fun kv => t.attrs.contains kv)

/-- `soup.find("table", attrs=f)` (line 42): first matching table element in
document order, if any. -/
def findTable (h : Html) (f : List (String × String)) : Option TableElem :=
  h.find? (fun t => matchesAttribs t f)

/-- The progress message logged by `extract` (line 43). -/
def extractMsg : String := "Data extraction complete. Initiating Transformation process"

/-- `extract` (lines 26-44).  The network is an input: `resp` is `none` when
`requests.get` itself fails, otherwise the response.  Returns the result
together with the progress log lines emitted, in order.  Mirrors the source
statement by statement: resolve the attribute filter, fetch,
`raise_for_status`, find the table, log the progress line, then run
`pd.read_html(str(table))[0]` — which raises when `find` returned `None`
(so `str(table)` is `"None"` and no table is found in it). -/
def extract (resp : Option HttpResponse)
    (tableAttribs : Option (List (String × String))) :
    Except ExtractError DataFrame × List String :=
  let attribs := resolveAttribs tableAttribs
  match resp with
  | none => (.error .transport, [])
  | some r =>
    if 400 ≤ r.status then (.error .httpStatus, [])
    else
      match findTable r.body attribs with
      | none => (.error .parse, [extractMsg])
      | some t => (.ok t.data, [extractMsg])

/-! ## The CSV loader (`load_to_csv`, lines 74-86) and `pd.read_csv`

The file is modelled at field granularity: a header record plus one record of
rendered cell texts per row (`index=False`: no row-index column is prepended).
Numbers are written in plain decimal (`digits.digits`, as Python renders
floats) and `pd.read_csv` turns a field back into a number when it parses as
one, otherwise keeps the text. -/

/-- The character for decimal digit `d`. -/
def digitChar (d : Nat) : Char := Char.ofNat (48 + d)

/-- Little-endian decimal digits, by explicit fuel (so that it computes by
kernel reduction). -/
def digitsRevAux : Nat → Nat → List Nat
  | 0, _ => []
  | _ + 1, 0 => []
  | fuel + 1, n + 1 => (n + 1) % 10 :: digitsRevAux fuel ((n + 1) / 10)

/-- Little-endian decimal digits of `n` (`[]` for `0`). -/
def digitsRev (n : Nat) : List Nat := digitsRevAux n n

/-- Big-endian decimal digit characters of `n` (`[]` for `0`). -/
def natChars (n : Nat) : List Char := (digitsRev n).reverse.map digitChar

/-- Value of a little-endian decimal digit list. -/
def ofDigitsRev (ds : List Nat) : Nat := ds.foldr (fun d a => d + 10 * a) 0

/-- Pad on the left with `'0'` up to length `k`. -/
def padLeft (k : Nat) (l : List Char) : List Char :=
  List.replicate (k - l.length) '0' ++ l

/-- Smallest exponent `e ≤ 30` with `q.den ∣ 10 ^ e`, when one exists: the
number of decimal places needed to write `q` exactly. -/
def decExp (q : ℚ) : Option Nat :=
  (List.range 31).find? (fun e => 10 ^ e % q.den == 0)

/-- `q` has an exact decimal representation (of at most 30 places) — true of
every value a float-backed data frame can hold. -/
def IsDec (q : ℚ) : Prop := (decExp q).isSome = true

/-- Decimal rendering of the scaled natural `n` with `e1` fractional places:
pad the digits of `n` to at least `e1 + 1` characters, then place the point
before the last `e1` of them. -/
def renderScaled (e1 n : Nat) : List Char :=
  let ds := padLeft (e1 + 1) (natChars n)
  ds.take (ds.length - e1) ++ '.' :: ds.drop (ds.length - e1)

/-- Decimal rendering of a nonnegative rational with `IsDec`, in Python float
style: at least one integer digit, a point, at least one fractional digit
(for example `80` renders as `"80.0"` and `3 / 25` as `"0.12"`). -/
def renderPosChars (q : ℚ) : List Char :=
  renderScaled (max ((decExp q).getD 0) 1)
    (q.num.toNat * (10 ^ max ((decExp q).getD 0) 1 / q.den))

/-- Decimal rendering of a rational with `IsDec`: a leading minus sign for
negative values, then the rendering of the absolute value. -/
def renderNumChars (q : ℚ) : List Char :=
  if q.num < 0 then '-' :: renderPosChars (-q) else renderPosChars q

/-- Decimal rendering of a numeric cell, as `df.to_csv` writes it. -/
def renderNum (q : ℚ) : String := String.mk (renderNumChars q)

/-- The text `df.to_csv` writes for one cell. -/
def renderValue : Value → String
  | .str s => s
  | .num q => renderNum q

/-- Value of a big-endian digit string. -/
def parseBE (cs : List Char) : Nat :=
  cs.foldl (fun a c => 10 * a + (c.toNat - 48)) 0

/-- Parse an unsigned decimal field: digits, or digits-point-digits. -/
def parsePosChars (cs : List Char) : Option ℚ :=
  let ip := cs.takeWhile (fun c => c != '.')
  match ip, cs.dropWhile (fun c => c != '.') with
  | [], _ => none
  | _, [] => if ip.all Char.isDigit then some ((parseBE ip : ℚ)) else none
  | _, '.' :: fp =>
    if ip.all Char.isDigit && fp.all Char.isDigit && !fp.isEmpty then
      some (mkRat (parseBE ip * 10 ^ fp.length + parseBE fp) (10 ^ fp.length))
    else none
  | _, _ :: _ => none

/-- Parse a signed decimal field. -/
def parseNumChars (cs : List Char) : Option ℚ :=
  match cs with
  | [] => none
  | c :: rest =>
    if c = '-' then (parsePosChars rest).map (fun q => -q) else parsePosChars cs

/-- `pd.read_csv` numeric conversion of one field. -/
def parseNum (s : String) : Option ℚ := parseNumChars s.data

/-- `pd.read_csv` reading of one field: a number when the text parses as one,
otherwise the text itself. -/
def parseCell (s : String) : Value :=
  match parseNum s with
  | some q => .num q
  | none => .str s

/-- Cells that survive the CSV round trip unchanged: numbers with an exact
decimal representation (every float is one), and texts that do not read back
as numbers. -/
def cellOk : Value → Bool
  | .num q => (decExp q).isSome
  | .str s => (parseNum s).isNone

/-- A CSV file at field granularity: the header record and the data records. -/
structure CsvFile where
  header : List String
  records : List (List String)
deriving DecidableEq

/-- `df.to_csv(path, index=False)` (line 85): header record from the column
names, one record per row, each cell rendered as text, and no row-index
column. -/
def writeCsv (df : DataFrame) : CsvFile :=
  ⟨df.columns, df.rows.map (fun r => r.map renderValue)⟩

/-- The progress message logged by `load_to_csv` (line 86). -/
def csvMsg : String := "Data saved to CSV file"

/-- `load_to_csv` (lines 74-86): write the file, then log. -/
def loadToCsv (df : DataFrame) : CsvFile × List String :=
  (writeCsv df, [csvMsg])

/-- `pd.read_csv` on such a file: column names from the header record, each
field converted to a number when it parses as one. -/
def readCsv (f : CsvFile) : DataFrame :=
  ⟨f.header, f.records.map (fun r => r.map parseCell)⟩

/-- Whether the HTTP fetch stage of `extract` succeeded: a response arrived
and `raise_for_status` did not raise. -/
def fetchOk : Option HttpResponse → Bool
  | none => false
  | some r => decide (r.status < 400)

/-! ## The DB loader (`load_to_db`, lines 89-106) -/

/-- The SQLite database reached through the connection: a mapping from table
name to stored table, modelled as an association list whose first match for a
name is its current contents. -/
def Database := List (String × DataFrame)

/-- Resolution of the `table_name` argument (lines 98-99): Python's
`if not table_name:` treats both `None` and the empty string as falsy. -/
def resolveTableName : Option String → String
  | none => "Largest_banks"
  | some s => if s = "" then "Largest_banks" else s

/-- `df.to_sql(name, conn, if_exists="replace", index=False)` (line 105):
drop any existing table of that name and store `df` under it. -/
def saveTable (db : Database) (name : String) (df : DataFrame) : Database :=
  (name, df) :: List.filter (fun p => p.1 != name) db

/-- Contents of the named table in the database, if present. -/
def lookupTable (db : Database) (name : String) : Option DataFrame :=
  (List.find? (fun p => p.1 == name) db).map (fun p => p.2)

/-- First progress message of `load_to_db` (line 104). -/
def dbMsgConn : String := "SQL Connection initiated"

/-- Second progress message of `load_to_db` (line 106). -/
def dbMsgDone : String := "Data loaded to Database as a table, Executing queries"

/-- `load_to_db` (lines 89-106): resolve the table name, then replace that
table with `df` and emit the two progress log lines bracketing the write. -/
def loadToDb (df : DataFrame) (db : Database) (tableName : Option String) :
    Database × List String :=
  let name := resolveTableName tableName
  (saveTable db name df, [dbMsgConn, dbMsgDone])

/-! ## Concrete inputs used in the scenario claims -/

/-- The one-row input table of the end-to-end transform scenario. -/
def dfX : DataFrame := ⟨["Bank name", mcColName], [[.str "X", .num 100]]⟩

/-- The rate mapping of the end-to-end transform scenario. -/
def ratesX : List (String × ℚ) :=
  [("GBP", mkRat 4 5), ("EUR", mkRat 93 100), ("INR", mkRat 8295 100)]

/-- A rate mapping lacking INR. -/
def ratesNoINR : List (String × ℚ) := [("GBP", mkRat 4 5), ("EUR", mkRat 93 100)]

/-- A one-row table whose market cap is 1, for the rounding-tie scenario. -/
def dfTie : DataFrame := ⟨["Bank name", mcColName], [[.str "X", .num 1]]⟩

/-- Rates producing the exact-tie product 1 * 1/8 = 0.125 on GBP. -/
def ratesTie : List (String × ℚ) := [("GBP", mkRat 1 8), ("EUR", 1), ("INR", 1)]

/-- A table element carrying the `wikitable` class, for the extract scenario. -/
def tableW : TableElem := ⟨[("class", "wikitable")], dfX⟩

/-- An enriched-style table for the CSV round-trip scenario. -/
def dfCsv : DataFrame :=
  ⟨["Bank name", mcColName, "MC_GBP_Billion"],
   [[.str "X", .num 100, .num (mkRat 4 5)], [.str "Y", .num (mkRat 1 8), .num 7]]⟩

/-- The tie-to-even behaviour of one derived cell: whenever the product lies
exactly halfway between two 2-decimal values `m / 100` and `(m + 1) / 100`,
the cell holds the neighbour whose last digit is even. -/
def TieEven (v r : ℚ) (df2 : DataFrame) (col : String) (k : Nat) : Prop :=
  ∀ m : ℤ, v * r = (2 * m + 1) / 200 →
    ∃ t : ℤ, t % 2 = 0 ∧ (t = m ∨ t = m + 1) ∧
      colCell df2 col k = some (Value.num ((t : ℚ) / 100))

/-! ## Supporting lemmas: rounding -/

lemma roundHalfEven_intCast (n : ℤ) : roundHalfEven (n : ℚ) = n := by
  unfold roundHalfEven
  rw [Int.fract_intCast, Int.floor_intCast]
  norm_num

lemma round2_scaled (q : ℚ) (m : ℤ) (h : q * 100 = (m : ℚ)) :
    round2 q = (m : ℚ) / 100 := by
  unfold round2
  rw [h, roundHalfEven_intCast]

lemma roundHalfEven_tie (m : ℤ) :
    roundHalfEven ((m : ℚ) + 1 / 2) = if m % 2 = 0 then m else m + 1 := by
  have hfl : ⌊(m : ℚ) + 1 / 2⌋ = m := by
    rw [add_comm, Int.floor_add_int]
    norm_num [Int.floor_eq_iff]
  have hfr : Int.fract ((m : ℚ) + 1 / 2) = 1 / 2 := by
    rw [add_comm, Int.fract_add_int, Int.fract]
    norm_num [Int.floor_eq_iff]
  unfold roundHalfEven
  rw [hfr, hfl]
  norm_num

lemma round2_tie (x : ℚ) (m : ℤ) (h : x * 100 = (m : ℚ) + 1 / 2) :
    round2 x = ((if m % 2 = 0 then m else m + 1 : ℤ) : ℚ) / 100 := by
  unfold round2
  rw [h, roundHalfEven_tie]

/-! ## Supporting lemmas: column lookup -/

lemma colIdx_sound {l : List String} {n : String} {j : Nat}
    (h : colIdx l n = some j) : l[j]? = some n := by
  induction l generalizing j with
  | nil => simp [colIdx] at h
  | cons c cs ih =>
    by_cases hc : c = n
    · simp [colIdx, hc] at h
      simp [← h, hc]
    · simp [colIdx, hc] at h
      obtain ⟨a, ha, rfl⟩ := h
      simpa using ih ha

lemma colIdx_lt {l : List String} {n : String} {j : Nat}
    (h : colIdx l n = some j) : j < l.length := by
  obtain ⟨hlt, -⟩ := List.getElem?_eq_some_iff.mp (colIdx_sound h)
  exact hlt

lemma colIdx_append_left {l l2 : List String} {n : String} {j : Nat}
    (h : colIdx l n = some j) : colIdx (l ++ l2) n = some j := by
  induction l generalizing j with
  | nil => simp [colIdx] at h
  | cons c cs ih =>
    by_cases hc : c = n
    · simp [colIdx, hc] at h ⊢
      exact h
    · simp [colIdx, hc] at h ⊢
      obtain ⟨a, ha, rfl⟩ := h
      exact ⟨a, ih ha, rfl⟩

lemma colIdx_append_new {l : List String} {n : String}
    (h : colIdx l n = none) : colIdx (l ++ [n]) n = some l.length := by
  induction l with
  | nil => simp [colIdx]
  | cons c cs ih =>
    by_cases hc : c = n
    · simp [colIdx, hc] at h
    · simp [colIdx, hc] at h ⊢
      exact ih h

lemma colIdx_append_none {l : List String} {n x : String}
    (h : colIdx l n = none) (hne : n ≠ x) : colIdx (l ++ [x]) n = none := by
  induction l with
  | nil =>
    simp [colIdx]
    exact fun hxn => hne hxn.symm
  | cons c cs ih =>
    by_cases hc : c = n
    · simp [colIdx, hc] at h
    · simp [colIdx, hc] at h ⊢
      exact ih h

/-! ## Supporting lemmas: `mapM` over `Option` -/

lemma mapM_option_length {α β : Type} {f : α → Option β} :
    ∀ {l : List α} {l2 : List β}, l.mapM f = some l2 → l2.length = l.length := by
  intro l
  induction l with
  | nil =>
    intro l2 h
    simp only [List.mapM_nil] at h
    simp [← Option.some.inj h]
  | cons a l ih =>
    intro l2 h
    rw [List.mapM_cons] at h
    cases hfa : f a with
    | none => rw [hfa] at h; simp at h
    | some b =>
      rw [hfa] at h
      cases hml : l.mapM f with
      | none => rw [hml] at h; simp at h
      | some bs =>
        rw [hml] at h
        simp only [Option.bind_some, Option.pure_def, Option.bind_eq_some] at h
        simp at h
        simp [← h, ih hml]

lemma mapM_option_getElem {α β : Type} {f : α → Option β} :
    ∀ {l : List α} {l2 : List β} {k : Nat} {a : α},
      l.mapM f = some l2 → l[k]? = some a → ∃ b, f a = some b ∧ l2[k]? = some b := by
  intro l
  induction l with
  | nil => intro l2 k a _ hk; simp at hk
  | cons x l ih =>
    intro l2 k a h hk
    rw [List.mapM_cons] at h
    cases hfx : f x with
    | none => rw [hfx] at h; simp at h
    | some b =>
      rw [hfx] at h
      cases hml : l.mapM f with
      | none => rw [hml] at h; simp at h
      | some bs =>
        rw [hml] at h
        simp at h
        cases k with
        | zero =>
          simp at hk
          exact ⟨b, hk ▸ hfx, by simp [← h]⟩
        | succ k =>
          simp at hk
          obtain ⟨c, hc, hidx⟩ := ih hml hk
          exact ⟨c, hc, by simp [← h, hidx]⟩

lemma mapM_option_isSome {α β : Type} {f : α → Option β} {l : List α} {l2 : List β}
    {a : α} (h : l.mapM f = some l2) (ha : a ∈ l) : ∃ b, f a = some b := by
  obtain ⟨k, hk⟩ := List.mem_iff_getElem?.mp ha
  obtain ⟨b, hb, -⟩ := mapM_option_getElem h hk
  exact ⟨b, hb⟩

lemma mapM_option_zipWith {α β γ : Type} {f : α → Option γ} {F : α → β → α} :
    ∀ {l1 : List α} {l2 : List β} {res : List γ},
      l2.length = l1.length →
      l1.mapM f = some res →
      (∀ a b, a ∈ l1 → b ∈ l2 → f (F a b) = f a) →
      (List.zipWith F l1 l2).mapM f = some res := by
  intro l1
  induction l1 with
  | nil =>
    intro l2 res hlen h _
    rw [List.length_nil, List.length_eq_zero] at hlen
    subst hlen
    simpa using h
  | cons a l1 ih =>
    intro l2 res hlen h hF
    cases l2 with
    | nil => simp at hlen
    | cons b l2 =>
      simp only [List.length_cons, Nat.succ.injEq] at hlen
      rw [List.zipWith_cons_cons, List.mapM_cons]
      rw [List.mapM_cons] at h
      cases hfa : f a with
      | none => rw [hfa] at h; simp at h
      | some c =>
        rw [hfa] at h
        cases hml : l1.mapM f with
        | none => rw [hml] at h; simp at h
        | some cs =>
          rw [hml] at h
          rw [hF a b (List.mem_cons_self a l1) (List.mem_cons_self b l2), hfa]
          rw [ih hlen hml (fun x y hx hy => hF x y (List.mem_cons_of_mem a hx) (List.mem_cons_of_mem b hy))]
          exact h

/-! ## Supporting lemmas: `assignCol` -/

lemma assignCol_rows_length {df : DataFrame} {name : String} {vals : List Value}
    (hlen : vals.length = df.rows.length) :
    (assignCol df name vals).rows.length = df.rows.length := by
  unfold assignCol
  cases colIdx df.columns name <;> simp [hlen]

lemma assignCol_wf {df : DataFrame} {name : String} {vals : List Value}
    (hwf : Wf df) (hlen : vals.length = df.rows.length) :
    Wf (assignCol df name vals) := by
  unfold assignCol
  cases hidx : colIdx df.columns name with
  | some j2 =>
    intro r hr
    simp only [] at hr ⊢
    obtain ⟨k, hk⟩ := List.mem_iff_getElem?.mp hr
    rw [List.getElem?_zipWith] at hk
    cases h1 : df.rows[k]? with
    | none => rw [h1] at hk; simp at hk
    | some row =>
      rw [h1] at hk
      cases h2 : vals[k]? with
      | none => rw [h2] at hk; simp at hk
      | some v =>
        rw [h2] at hk
        simp only [Option.some.injEq] at hk
        rw [← hk]
        simp [hwf row (List.getElem?_mem h1)]
  | none =>
    intro r hr
    simp only [] at hr ⊢
    obtain ⟨k, hk⟩ := List.mem_iff_getElem?.mp hr
    rw [List.getElem?_zipWith] at hk
    cases h1 : df.rows[k]? with
    | none => rw [h1] at hk; simp at hk
    | some row =>
      rw [h1] at hk
      cases h2 : vals[k]? with
      | none => rw [h2] at hk; simp at hk
      | some v =>
        rw [h2] at hk
        simp only [Option.some.injEq] at hk
        rw [← hk]
        simp [hwf row (List.getElem?_mem h1)]

lemma assignCol_cell_other {df : DataFrame} {name : String} {vals : List Value}
    (hwf : Wf df) (hlen : vals.length = df.rows.length)
    {n : String} (hne : n ≠ name) (k : Nat) :
    colCell (assignCol df name vals) n k = colCell df n k := by
  unfold colCell assignCol
  cases hidx : colIdx df.columns name with
  | some j2 =>
    simp only []
    cases hn : colIdx df.columns n with
    | none => rfl
    | some j =>
      have hs1 := colIdx_sound hidx
      have hs2 := colIdx_sound hn
      have hjj : j2 ≠ j := by
        intro he
        rw [he, hs2] at hs1
        exact hne (Option.some.inj hs1)
      rw [List.getElem?_zipWith]
      cases h1 : df.rows[k]? with
      | none => rfl
      | some r =>
        cases h2 : vals[k]? with
        | none =>
          obtain ⟨hk1, -⟩ := List.getElem?_eq_some_iff.mp h1
          have hk2 := List.getElem?_eq_none_iff.mp h2
          omega
        | some v =>
          simp only []
          rw [List.getElem?_set_ne hjj]
  | none =>
    simp only []
    cases hn : colIdx df.columns n with
    | none =>
      rw [colIdx_append_none hn hne]
    | some j =>
      rw [colIdx_append_left hn]
      rw [List.getElem?_zipWith]
      cases h1 : df.rows[k]? with
      | none => rfl
      | some r =>
        cases h2 : vals[k]? with
        | none =>
          obtain ⟨hk1, -⟩ := List.getElem?_eq_some_iff.mp h1
          have hk2 := List.getElem?_eq_none_iff.mp h2
          omega
        | some v =>
          simp only []
          have hjr : j < r.length := by
            rw [hwf r (List.getElem?_mem h1)]
            exact colIdx_lt hn
          rw [List.getElem?_append_left hjr]

lemma assignCol_cell_self {df : DataFrame} {name : String} {vals : List Value}
    (hwf : Wf df) (hlen : vals.length = df.rows.length) (k : Nat) :
    colCell (assignCol df name vals) name k = vals[k]? := by
  unfold colCell assignCol
  cases hidx : colIdx df.columns name with
  | some j2 =>
    simp only [hidx]
    rw [List.getElem?_zipWith]
    cases h1 : df.rows[k]? with
    | none =>
      have hk1 := List.getElem?_eq_none_iff.mp h1
      have : vals[k]? = none := List.getElem?_eq_none (by omega)
      rw [this]
    | some r =>
      cases h2 : vals[k]? with
      | none =>
        obtain ⟨hk1, -⟩ := List.getElem?_eq_some_iff.mp h1
        have hk2 := List.getElem?_eq_none_iff.mp h2
        omega
      | some v =>
        simp only []
        have hj2 : j2 < r.length := by
          rw [hwf r (List.getElem?_mem h1)]
          exact colIdx_lt hidx
        rw [List.getElem?_set_self hj2]
  | none =>
    simp only [colIdx_append_new hidx]
    rw [List.getElem?_zipWith]
    cases h1 : df.rows[k]? with
    | none =>
      have hk1 := List.getElem?_eq_none_iff.mp h1
      have : vals[k]? = none := List.getElem?_eq_none (by omega)
      rw [this]
    | some r =>
      cases h2 : vals[k]? with
      | none =>
        obtain ⟨hk1, -⟩ := List.getElem?_eq_some_iff.mp h1
        have hk2 := List.getElem?_eq_none_iff.mp h2
        omega
      | some v =>
        simp only []
        have hr : r.length = df.columns.length := hwf r (List.getElem?_mem h1)
        rw [← hr, List.getElem?_concat_length]

/-! ## Supporting lemmas: `getNumCol`, `convertStep` and `transform` -/

lemma getNumCol_length {df : DataFrame} {j : Nat} {vs : List ℚ}
    (h : getNumCol df j = some vs) : vs.length = df.rows.length :=
  mapM_option_length h

lemma assignCol_colIdx {df : DataFrame} {name : String} {vals : List Value}
    {n : String} {j : Nat} (h : colIdx df.columns n = some j) :
    colIdx (assignCol df name vals).columns n = some j := by
  unfold assignCol
  cases hidx : colIdx df.columns name with
  | some j2 => exact h
  | none => exact colIdx_append_left h

lemma getNumCol_assign {df : DataFrame} {name : String} {vals : List Value}
    {j : Nat} {vs : List ℚ}
    (hvs : getNumCol df j = some vs) (hlen : vals.length = df.rows.length)
    (hj : colIdx df.columns mcColName = some j) (hname : name ≠ mcColName) :
    getNumCol (assignCol df name vals) j = some vs := by
  unfold assignCol
  cases hidx : colIdx df.columns name with
  | some j2 =>
    have hs1 := colIdx_sound hidx
    have hs2 := colIdx_sound hj
    have hjj : j2 ≠ j := by
      intro hejj
      rw [hejj, hs2] at hs1
      exact hname (Option.some.inj hs1).symm
    apply mapM_option_zipWith hlen hvs
    intro r v _ _
    rw [List.getElem?_set_ne hjj]
  | none =>
    apply mapM_option_zipWith hlen hvs
    intro r v hrmem _
    obtain ⟨b, hb⟩ := mapM_option_isSome hvs hrmem
    obtain ⟨c, hc, -⟩ := Option.bind_eq_some.mp hb
    obtain ⟨hlt, -⟩ := List.getElem?_eq_some_iff.mp hc
    rw [List.getElem?_append_left hlt]

lemma convertStep_okE {rates : List (String × ℚ)} {cur newName : String}
    {df : DataFrame} {j : Nat} {r : ℚ} {vs : List ℚ}
    (hmc : colIdx df.columns mcColName = some j)
    (hr : lookupRate rates cur = some r)
    (hvs : getNumCol df j = some vs) :
    convertStep rates cur newName df =
      .ok (assignCol df newName (vs.map (fun v => Value.num (round2 (v * r))))) := by
  simp [convertStep, hmc, hr, hvs]

lemma convertStep_ok_inv {rates : List (String × ℚ)} {cur newName : String}
    {df df2 : DataFrame}
    (h : convertStep rates cur newName df = .ok df2) :
    ∃ j r vs, colIdx df.columns mcColName = some j ∧
      lookupRate rates cur = some r ∧ getNumCol df j = some vs ∧
      df2 = assignCol df newName (vs.map (fun v => Value.num (round2 (v * r)))) := by
  unfold convertStep at h
  split at h
  · exact absurd h (by simp)
  · rename_i j hmc
    split at h
    · exact absurd h (by simp)
    · rename_i r hr
      split at h
      · exact absurd h (by simp)
      · rename_i vs hvs
        exact ⟨j, r, vs, hmc, hr, hvs, (Except.ok.inj h).symm⟩

lemma convertStep_spec (cur newName : String) {rates : List (String × ℚ)}
    {df : DataFrame} {j : Nat} {r : ℚ} {vs : List ℚ}
    (hwf : Wf df)
    (hnm : newName ≠ mcColName)
    (hmc : colIdx df.columns mcColName = some j)
    (hr : lookupRate rates cur = some r)
    (hvs : getNumCol df j = some vs) :
    ∃ df2, convertStep rates cur newName df = .ok df2 ∧
      Wf df2 ∧
      df2.rows.length = df.rows.length ∧
      colIdx df2.columns mcColName = some j ∧
      getNumCol df2 j = some vs ∧
      (∀ n, n ≠ newName → ∀ k, colCell df2 n k = colCell df n k) ∧
      (∀ k q, vs[k]? = some q →
        colCell df2 newName k = some (Value.num (round2 (q * r)))) := by
  have hlen : (vs.map (fun v => Value.num (round2 (v * r)))).length = df.rows.length := by
    rw [List.length_map]
    exact getNumCol_length hvs
  refine ⟨_, convertStep_okE hmc hr hvs, assignCol_wf hwf hlen,
    assignCol_rows_length hlen, assignCol_colIdx hmc,
    getNumCol_assign hvs hlen hmc hnm,
    fun n hne k => assignCol_cell_other hwf hlen hne k,
    fun k q hq => ?_⟩
  rw [assignCol_cell_self hwf hlen k]
  simp [hq]

theorem transform_spec {df : DataFrame} {rates : List (String × ℚ)}
    {j : Nat} {g e i : ℚ} {vs : List ℚ}
    (hwf : Wf df)
    (hmc : colIdx df.columns mcColName = some j)
    (hg : lookupRate rates "GBP" = some g)
    (he : lookupRate rates "EUR" = some e)
    (hi : lookupRate rates "INR" = some i)
    (hvs : getNumCol df j = some vs) :
    ∃ df2, transform df rates = .ok df2 ∧
      Wf df2 ∧
      df2.rows.length = df.rows.length ∧
      (∀ n, n ≠ "MC_GBP_Billion" → n ≠ "MC_EUR_Billion" → n ≠ "MC_INR_Billion" →
        ∀ k, colCell df2 n k = colCell df n k) ∧
      (∀ k q, vs[k]? = some q →
        colCell df2 "MC_GBP_Billion" k = some (Value.num (round2 (q * g))) ∧
        colCell df2 "MC_EUR_Billion" k = some (Value.num (round2 (q * e))) ∧
        colCell df2 "MC_INR_Billion" k = some (Value.num (round2 (q * i)))) := by
  obtain ⟨d1, h1ok, h1wf, h1len, h1mc, h1vs, h1other, h1self⟩ :=
    convertStep_spec "GBP" "MC_GBP_Billion" hwf (by decide) hmc hg hvs
  obtain ⟨d2, h2ok, h2wf, h2len, h2mc, h2vs, h2other, h2self⟩ :=
    convertStep_spec "EUR" "MC_EUR_Billion" h1wf (by decide) h1mc he h1vs
  obtain ⟨d3, h3ok, h3wf, h3len, h3mc, h3vs, h3other, h3self⟩ :=
    convertStep_spec "INR" "MC_INR_Billion" h2wf (by decide) h2mc hi h2vs
  refine ⟨d3, ?_, h3wf, by rw [h3len, h2len, h1len], ?_, ?_⟩
  · unfold transform
    rw [h1ok]
    simp only [Except.bind]
    rw [h2ok]
    simp only [Except.bind]
    exact h3ok
  · intro n hg1 he1 hi1 k
    rw [h3other n hi1 k, h2other n he1 k, h1other n hg1 k]
  · intro k q hq
    refine ⟨?_, ?_, h3self k q hq⟩
    · rw [h3other _ (by decide) k, h2other _ (by decide) k]
      exact h1self k q hq
    · rw [h3other _ (by decide) k]
      exact h2self k q hq

lemma transform_ok_inv {df df2 : DataFrame} {rates : List (String × ℚ)}
    (h : transform df rates = .ok df2) :
    ∃ j g e i vs, colIdx df.columns mcColName = some j ∧
      lookupRate rates "GBP" = some g ∧
      lookupRate rates "EUR" = some e ∧
      lookupRate rates "INR" = some i ∧
      getNumCol df j = some vs := by
  unfold transform at h
  cases hs1 : convertStep rates "GBP" "MC_GBP_Billion" df with
  | error ex => rw [hs1] at h; exact absurd h (by simp [Except.bind])
  | ok d1 =>
    rw [hs1] at h
    simp only [Except.bind] at h
    obtain ⟨j, g, vs, hmc, hg, hvs, -⟩ := convertStep_ok_inv hs1
    cases hs2 : convertStep rates "EUR" "MC_EUR_Billion" d1 with
    | error ex => rw [hs2] at h; exact absurd h (by simp [Except.bind])
    | ok d2 =>
      rw [hs2] at h
      simp only [Except.bind] at h
      obtain ⟨j2, e, vs2, -, he, -, -⟩ := convertStep_ok_inv hs2
      cases hs3 : convertStep rates "INR" "MC_INR_Billion" d2 with
      | error ex => rw [hs3] at h; exact absurd h (by simp [Except.bind])
      | ok d3 =>
        obtain ⟨j3, i, vs3, -, hi, -, -⟩ := convertStep_ok_inv hs3
        exact ⟨j, g, e, i, vs, hmc, hg, he, hi, hvs⟩

/-! ## Supporting lemmas: decimal rendering and parsing -/

lemma parseBE_aux (cs : List Char) :
    ∀ a : Nat, cs.foldl (fun x c => 10 * x + (c.toNat - 48)) a =
      a * 10 ^ cs.length + parseBE cs := by
  induction cs with
  | nil => intro a; simp [parseBE]
  | cons c cs ih =>
    intro a
    show List.foldl _ (10 * a + (c.toNat - 48)) cs =
      a * 10 ^ (c :: cs).length + parseBE (c :: cs)
    rw [ih (10 * a + (c.toNat - 48))]
    have hbe : parseBE (c :: cs) = (10 * 0 + (c.toNat - 48)) * 10 ^ cs.length + parseBE cs := by
      show List.foldl _ (10 * 0 + (c.toNat - 48)) cs = _
      rw [ih (10 * 0 + (c.toNat - 48))]
    rw [hbe, List.length_cons]
    ring

lemma parseBE_append (xs ys : List Char) :
    parseBE (xs ++ ys) = parseBE xs * 10 ^ ys.length + parseBE ys := by
  show List.foldl _ 0 (xs ++ ys) = _
  rw [List.foldl_append]
  exact parseBE_aux ys (parseBE xs)

lemma parseBE_replicate (k : Nat) : parseBE (List.replicate k '0') = 0 := by
  induction k with
  | zero => rfl
  | succ k ih =>
    show List.foldl _ 0 (List.replicate (k + 1) '0') = 0
    rw [List.replicate_succ, List.foldl_cons]
    exact ih

lemma parseBE_padLeft (k : Nat) (l : List Char) :
    parseBE (padLeft k l) = parseBE l := by
  unfold padLeft
  rw [parseBE_append, parseBE_replicate]
  ring

lemma digitsRevAux_spec : ∀ fuel n : Nat, n ≤ fuel →
    ofDigitsRev (digitsRevAux fuel n) = n := by
  intro fuel
  induction fuel with
  | zero =>
    intro n h
    interval_cases n
    rfl
  | succ fuel ih =>
    intro n h
    match n with
    | 0 => rfl
    | n + 1 =>
      show ofDigitsRev ((n + 1) % 10 :: digitsRevAux fuel ((n + 1) / 10)) = n + 1
      unfold ofDigitsRev
      rw [List.foldr_cons]
      have hd : (n + 1) / 10 ≤ fuel := by
        have := Nat.div_lt_self (Nat.succ_pos n) (by norm_num : 1 < 10)
        omega
      have hrec := ih ((n + 1) / 10) hd
      unfold ofDigitsRev at hrec
      rw [hrec]
      omega

lemma digitsRevAux_lt : ∀ fuel n : Nat, ∀ d ∈ digitsRevAux fuel n, d < 10 := by
  intro fuel
  induction fuel with
  | zero => intro n d hd; simp [digitsRevAux] at hd
  | succ fuel ih =>
    intro n d hd
    match n with
    | 0 => simp [digitsRevAux] at hd
    | n + 1 =>
      rw [show digitsRevAux (fuel + 1) (n + 1) =
        (n + 1) % 10 :: digitsRevAux fuel ((n + 1) / 10) from rfl] at hd
      rcases List.mem_cons.mp hd with h | h
      · rw [h]; exact Nat.mod_lt _ (by norm_num)
      · exact ih _ d h

lemma digitChar_toNat {d : Nat} (h : d < 10) : (digitChar d).toNat - 48 = d := by
  interval_cases d <;> rfl

lemma digitChar_isDigit {d : Nat} (h : d < 10) : (digitChar d).isDigit = true := by
  interval_cases d <;> rfl

lemma parseBE_rev_digits (ds : List Nat) (h : ∀ d ∈ ds, d < 10) :
    parseBE (ds.reverse.map digitChar) = ofDigitsRev ds := by
  induction ds with
  | nil => rfl
  | cons d ds ih =>
    rw [List.reverse_cons, List.map_append, parseBE_append]
    rw [ih (fun x hx => h x (List.mem_cons_of_mem d hx))]
    have hv : parseBE (List.map digitChar [d]) = d := by
      show 10 * 0 + ((digitChar d).toNat - 48) = d
      rw [digitChar_toNat (h d (List.mem_cons_self d ds))]
      omega
    rw [hv]
    have hl : (List.map digitChar [d]).length = 1 := rfl
    rw [hl]
    unfold ofDigitsRev
    rw [List.foldr_cons]
    ring

lemma parseBE_natChars (n : Nat) : parseBE (natChars n) = n := by
  unfold natChars digitsRev
  rw [parseBE_rev_digits _ (digitsRevAux_lt n n)]
  exact digitsRevAux_spec n n (Nat.le_refl n)

lemma natChars_digit {n : Nat} : ∀ c ∈ natChars n, c.isDigit = true := by
  intro c hc
  unfold natChars at hc
  rw [List.mem_map] at hc
  obtain ⟨d, hd, rfl⟩ := hc
  rw [List.mem_reverse] at hd
  exact digitChar_isDigit (digitsRevAux_lt n n d hd)

lemma padLeft_digit {l : List Char} (h : ∀ c ∈ l, c.isDigit = true) (k : Nat) :
    ∀ c ∈ padLeft k l, c.isDigit = true := by
  intro c hc
  unfold padLeft at hc
  rcases List.mem_append.mp hc with h0 | h0
  · rw [List.eq_of_mem_replicate h0]; rfl
  · exact h c h0

lemma isDigit_ne_dot {c : Char} (h : c.isDigit = true) : (c != '.') = true := by
  by_cases hc : c = '.'
  · rw [hc] at h; exact absurd h (by decide)
  · simp [bne_iff_ne, hc]

lemma isDigit_ne_minus {c : Char} (h : c.isDigit = true) : c ≠ '-' := by
  intro hc
  rw [hc] at h
  exact absurd h (by decide)

lemma takeWhile_dot (l1 l2 : List Char) (h : ∀ c ∈ l1, (c != '.') = true) :
    (l1 ++ '.' :: l2).takeWhile (fun c => c != '.') = l1 := by
  induction l1 with
  | nil => simp [List.takeWhile_cons]
  | cons c l1 ih =>
    rw [List.cons_append, List.takeWhile_cons]
    simp only [h c (List.mem_cons_self c l1), if_true]
    rw [ih (fun x hx => h x (List.mem_cons_of_mem c hx))]

lemma dropWhile_dot (l1 l2 : List Char) (h : ∀ c ∈ l1, (c != '.') = true) :
    (l1 ++ '.' :: l2).dropWhile (fun c => c != '.') = '.' :: l2 := by
  induction l1 with
  | nil => simp [List.dropWhile_cons]
  | cons c l1 ih =>
    rw [List.cons_append, List.dropWhile_cons]
    simp only [h c (List.mem_cons_self c l1), if_true]
    exact ih (fun x hx => h x (List.mem_cons_of_mem c hx))

lemma decExp_spec {q : ℚ} (h : IsDec q) :
    10 ^ ((decExp q).getD 0) % q.den = 0 := by
  unfold IsDec at h
  obtain ⟨e, he⟩ := Option.isSome_iff_exists.mp h
  have hp := List.find?_some he
  rw [he]
  simpa using hp

lemma parsePos_split (ds : List Char) (e1 : Nat) (h1 : 1 ≤ e1)
    (hlen : e1 + 1 ≤ ds.length) (hdig : ∀ c ∈ ds, c.isDigit = true) :
    parsePosChars (ds.take (ds.length - e1) ++ '.' :: ds.drop (ds.length - e1))
      = some (mkRat (parseBE ds) (10 ^ e1)) := by
  have hipdig : ∀ c ∈ ds.take (ds.length - e1), c.isDigit = true :=
    fun c hc => hdig c (List.mem_of_mem_take hc)
  have hfpdig : ∀ c ∈ ds.drop (ds.length - e1), c.isDigit = true :=
    fun c hc => hdig c (List.mem_of_mem_drop hc)
  have hipdot : ∀ c ∈ ds.take (ds.length - e1), (c != '.') = true :=
    fun c hc => isDigit_ne_dot (hipdig c hc)
  have hiplen : (ds.take (ds.length - e1)).length = ds.length - e1 := by
    rw [List.length_take]
    omega
  have hfplen : (ds.drop (ds.length - e1)).length = e1 := by
    rw [List.length_drop]
    omega
  unfold parsePosChars
  rw [takeWhile_dot _ _ hipdot, dropWhile_dot _ _ hipdot]
  cases hip : ds.take (ds.length - e1) with
  | nil =>
    exfalso
    rw [hip] at hiplen
    simp at hiplen
    omega
  | cons c ip =>
    cases hfp : ds.drop (ds.length - e1) with
    | nil =>
      exfalso
      rw [hfp] at hfplen
      simp at hfplen
      omega
    | cons d fp =>
      have hca : (c :: ip).all Char.isDigit = true := by
        rw [← hip, List.all_eq_true]
        exact hipdig
      have hcb : (d :: fp).all Char.isDigit = true := by
        rw [← hfp, List.all_eq_true]
        exact hfpdig
      simp only []
      rw [if_pos (by simp [hca, hcb])]
      rw [← hip, ← hfp, hfplen]
      have key : parseBE (List.take (ds.length - e1) ds) * 10 ^ e1 +
          parseBE (List.drop (ds.length - e1) ds) = parseBE ds := by
        conv_rhs => rw [← List.take_append_drop (ds.length - e1) ds]
        rw [parseBE_append, hfplen]
      have keyZ : ((parseBE (List.take (ds.length - e1) ds) : ℤ) * 10 ^ e1 +
          (parseBE (List.drop (ds.length - e1) ds) : ℤ)) = (parseBE ds : ℤ) := by
        exact_mod_cast key
      rw [keyZ]

lemma parsePos_renderScaled (e1 n : Nat) (h1 : 1 ≤ e1) :
    parsePosChars (renderScaled e1 n) = some (mkRat (parseBE (padLeft (e1 + 1) (natChars n))) (10 ^ e1)) := by
  show parsePosChars
      ((padLeft (e1 + 1) (natChars n)).take ((padLeft (e1 + 1) (natChars n)).length - e1)
        ++ '.' :: (padLeft (e1 + 1) (natChars n)).drop ((padLeft (e1 + 1) (natChars n)).length - e1))
    = _
  rw [parsePos_split (padLeft (e1 + 1) (natChars n)) e1 h1
    (by unfold padLeft; rw [List.length_append, List.length_replicate]; omega)
    (padLeft_digit natChars_digit _)]

lemma renderScaled_head (e1 n : Nat) (h1 : 1 ≤ e1) :
    ∃ c cs, renderScaled e1 n = c :: cs ∧ c.isDigit = true := by
  have hlen : e1 + 1 ≤ (padLeft (e1 + 1) (natChars n)).length := by
    unfold padLeft
    rw [List.length_append, List.length_replicate]
    omega
  have hiplen : ((padLeft (e1 + 1) (natChars n)).take
      ((padLeft (e1 + 1) (natChars n)).length - e1)).length =
      (padLeft (e1 + 1) (natChars n)).length - e1 := by
    rw [List.length_take]
    omega
  cases hip : (padLeft (e1 + 1) (natChars n)).take
      ((padLeft (e1 + 1) (natChars n)).length - e1) with
  | nil =>
    exfalso
    rw [hip] at hiplen
    simp at hiplen
    omega
  | cons c cs2 =>
    refine ⟨c, cs2 ++ '.' :: (padLeft (e1 + 1) (natChars n)).drop
      ((padLeft (e1 + 1) (natChars n)).length - e1), ?_, ?_⟩
    · show (padLeft (e1 + 1) (natChars n)).take
          ((padLeft (e1 + 1) (natChars n)).length - e1)
        ++ '.' :: (padLeft (e1 + 1) (natChars n)).drop
          ((padLeft (e1 + 1) (natChars n)).length - e1) = _
      rw [hip]
      rfl
    · have hc : c ∈ padLeft (e1 + 1) (natChars n) :=
        List.mem_of_mem_take (hip ▸ List.mem_cons_self c cs2)
      exact padLeft_digit natChars_digit _ c hc

lemma renderPos_head (q : ℚ) :
    ∃ c cs, renderPosChars q = c :: cs ∧ c.isDigit = true :=
  renderScaled_head _ _ (Nat.le_max_right _ 1)

lemma render_value_eq {q : ℚ} (hq : 0 ≤ q.num) (e1 : Nat)
    (hdvd : q.den ∣ 10 ^ e1) :
    mkRat ((q.num.toNat * (10 ^ e1 / q.den) : ℕ) : ℤ) (10 ^ e1) = q := by
  have hdd : q.den ≠ 0 := q.den_nz
  have hdQ : (q.den : ℚ) ≠ 0 := Nat.cast_ne_zero.mpr hdd
  have h10 : ((10 : ℚ)) ^ e1 ≠ 0 := by positivity
  have htn : ((q.num.toNat : ℕ) : ℚ) = (q.num : ℚ) := by
    exact_mod_cast congrArg (fun z : ℤ => (z : ℚ)) (Int.toNat_of_nonneg hq)
  have hc1 : ((10 ^ e1 / q.den : ℕ) : ℚ) = (10 : ℚ) ^ e1 / (q.den : ℚ) := by
    rw [Nat.cast_div hdvd hdQ]
    push_cast
    ring
  have hnum : (((q.num.toNat * (10 ^ e1 / q.den) : ℕ) : ℤ) : ℚ)
      = (q.num : ℚ) * ((10 : ℚ) ^ e1 / (q.den : ℚ)) := by
    rw [Int.cast_natCast, Nat.cast_mul, hc1, htn]
  have hden2 : ((10 ^ e1 : ℕ) : ℚ) = (10 : ℚ) ^ e1 := by
    push_cast
    ring
  rw [Rat.mkRat_eq_div, hnum, hden2, div_eq_iff h10]
  conv_rhs => rw [← Rat.num_div_den q]
  ring

lemma IsDec_neg {q : ℚ} (h : IsDec q) : IsDec (-q) := by
  unfold IsDec decExp at h ⊢
  have hpred : (fun e2 => 10 ^ e2 % (-q).den == 0) =
      (fun e2 => 10 ^ e2 % q.den == 0) := by
    funext e2
    rw [Rat.neg_den]
  rw [hpred]
  exact h

lemma renderPos_roundtrip {q : ℚ} (hq : 0 ≤ q.num) (h : IsDec q) :
    parsePosChars (renderPosChars q) = some q := by
  have hden := decExp_spec h
  have hdvd : q.den ∣ 10 ^ max ((decExp q).getD 0) 1 :=
    Nat.dvd_trans (Nat.dvd_of_mod_eq_zero hden)
      (pow_dvd_pow 10 (Nat.le_max_left _ 1))
  show parsePosChars (renderScaled (max ((decExp q).getD 0) 1)
    (q.num.toNat * (10 ^ max ((decExp q).getD 0) 1 / q.den))) = some q
  rw [parsePos_renderScaled _ _ (Nat.le_max_right _ 1)]
  rw [parseBE_padLeft, parseBE_natChars]
  rw [render_value_eq hq _ hdvd]

lemma renderNum_roundtrip {q : ℚ} (h : IsDec q) :
    parseNum (renderNum q) = some q := by
  show parseNumChars (renderNumChars q) = some q
  unfold renderNumChars
  by_cases hneg : q.num < 0
  · rw [if_pos hneg]
    show (if ('-' : Char) = '-'
        then (parsePosChars (renderPosChars (-q))).map (fun x => -x)
        else parsePosChars ('-' :: renderPosChars (-q))) = some q
    rw [if_pos rfl]
    rw [renderPos_roundtrip (by rw [Rat.neg_num]; omega) (IsDec_neg h)]
    show some (-(-q)) = some q
    rw [neg_neg]
  · rw [if_neg hneg]
    obtain ⟨c, cs, hrp, hdig⟩ := renderPos_head q
    rw [hrp]
    show (if c = '-' then (parsePosChars cs).map (fun x => -x)
        else parsePosChars (c :: cs)) = some q
    rw [if_neg (isDigit_ne_minus hdig)]
    rw [← hrp]
    exact renderPos_roundtrip (by omega) h

lemma colCell_some {df : DataFrame} {name : String} {k : Nat} {v : Value}
    (h : colCell df name k = some v) :
    ∃ j r, colIdx df.columns name = some j ∧ df.rows[k]? = some r ∧
      r[j]? = some v := by
  unfold colCell at h
  split at h
  · exact absurd h (by simp)
  · rename_i j hj
    split at h
    · exact absurd h (by simp)
    · rename_i r hr
      exact ⟨j, r, hj, hr, h⟩

/-! ## Claim theorems -/

/-- Claim C1: for every input table with the USD market-cap column (and
numeric cells there) and every rate mapping providing GBP, EUR and INR,
`transform` succeeds; the output has exactly as many rows as the input, the
k-th output row is derived from the k-th input row with its three derived
cells equal to `round(market_cap * rate, 2)`, and every other column is
unchanged row by row (no row added, removed, or reordered). -/
theorem claim_C1 (df : DataFrame) (rates : List (String × ℚ)) (j : Nat)
    (g e i : ℚ) (vs : List ℚ)
    (hwf : Wf df)
    (hmc : colIdx df.columns mcColName = some j)
    (hg : lookupRate rates "GBP" = some g)
    (he : lookupRate rates "EUR" = some e)
    (hi : lookupRate rates "INR" = some i)
    (hvs : getNumCol df j = some vs) :
    ∃ df2, transform df rates = Except.ok df2 ∧
      df2.rows.length = df.rows.length ∧
      (∀ k q, vs[k]? = some q →
        colCell df2 "MC_GBP_Billion" k = some (Value.num (round2 (q * g))) ∧
        colCell df2 "MC_EUR_Billion" k = some (Value.num (round2 (q * e))) ∧
        colCell df2 "MC_INR_Billion" k = some (Value.num (round2 (q * i)))) ∧
      (∀ n, n ≠ "MC_GBP_Billion" → n ≠ "MC_EUR_Billion" → n ≠ "MC_INR_Billion" →
        ∀ k, colCell df2 n k = colCell df n k) := by
  obtain ⟨df2, hok, hwf2, hlen, hother, hself⟩ :=
    transform_spec hwf hmc hg he hi hvs
  exact ⟨df2, hok, hlen, hself, hother⟩

theorem claim_C1_witness :
    Wf dfX ∧ getNumCol dfX 1 = some [100] ∧
    ∃ df2, transform dfX ratesX = Except.ok df2 ∧
      df2.rows.length = dfX.rows.length := by
  refine ⟨by decide, by decide, ?_⟩
  obtain ⟨df2, hok, hlen, -, -⟩ :=
    claim_C1 dfX ratesX 1 (mkRat 4 5) (mkRat 93 100) (mkRat 8295 100) [100]
      (by decide) (by decide) (by decide) (by decide) (by decide) (by decide)
  exact ⟨df2, hok, hlen⟩

/-- Claim C2: on the one-row table with market cap 100 and the rates
GBP = 0.8, EUR = 0.93, INR = 82.95, `transform` yields the derived cells
80.0, 93.0 and 8295.0. -/
theorem claim_C2 :
    ∃ df2, transform dfX ratesX = Except.ok df2 ∧
      colCell df2 "MC_GBP_Billion" 0 = some (Value.num 80) ∧
      colCell df2 "MC_EUR_Billion" 0 = some (Value.num 93) ∧
      colCell df2 "MC_INR_Billion" 0 = some (Value.num 8295) := by
  have h80 : round2 ((100 : ℚ) * mkRat 4 5) = 80 := by
    rw [round2_scaled ((100 : ℚ) * mkRat 4 5) 8000
      (by rw [Rat.mkRat_eq_div]; norm_num)]
    norm_num
  have h93 : round2 ((100 : ℚ) * mkRat 93 100) = 93 := by
    rw [round2_scaled ((100 : ℚ) * mkRat 93 100) 9300
      (by rw [Rat.mkRat_eq_div]; norm_num)]
    norm_num
  have h8295 : round2 ((100 : ℚ) * mkRat 8295 100) = 8295 := by
    rw [round2_scaled ((100 : ℚ) * mkRat 8295 100) 829500
      (by rw [Rat.mkRat_eq_div]; norm_num)]
    norm_num
  refine ⟨_, rfl, ?_, ?_, ?_⟩ <;>
    simp [colCell, colIdx, assignCol, dfX, ratesX, mcColName, h80, h93, h8295]

/-- Claim C4: when the market-cap column is present but the rate mapping
lacks at least one of GBP, EUR, INR, `transform` raises (the dict subscript
`rates_dict[cur]` is a `KeyError`) instead of returning a table with a null
or zero derived column. -/
theorem claim_C4 (df : DataFrame) (rates : List (String × ℚ)) (j : Nat)
    (hmc : colIdx df.columns mcColName = some j)
    (hmiss : lookupRate rates "GBP" = none ∨ lookupRate rates "EUR" = none ∨
      lookupRate rates "INR" = none) :
    ∃ er, transform df rates = Except.error er := by
  cases hs1 : convertStep rates "GBP" "MC_GBP_Billion" df with
  | error ex => exact ⟨ex, by simp [transform, hs1, Except.bind]⟩
  | ok d1 =>
    obtain ⟨j1, g, vs1, hmc1, hg1, hvs1, hd1⟩ := convertStep_ok_inv hs1
    rcases hmiss with hG | hE | hI
    · rw [hG] at hg1
      exact absurd hg1 (by simp)
    · have hmc1b : colIdx d1.columns mcColName = some j1 := by
        rw [hd1]
        exact assignCol_colIdx hmc1
      have hs2 : convertStep rates "EUR" "MC_EUR_Billion" d1 =
          Except.error TransformError.missingRate := by
        simp [convertStep, hmc1b, hE]
      exact ⟨TransformError.missingRate, by
        simp [transform, hs1, hs2, Except.bind]⟩
    · cases hs2 : convertStep rates "EUR" "MC_EUR_Billion" d1 with
      | error ex2 => exact ⟨ex2, by simp [transform, hs1, hs2, Except.bind]⟩
      | ok d2 =>
        obtain ⟨j2, e2, vs2, hmc2, he2, hvs2, hd2⟩ := convertStep_ok_inv hs2
        have hmc2b : colIdx d2.columns mcColName = some j2 := by
          rw [hd2]
          exact assignCol_colIdx hmc2
        have hs3 : convertStep rates "INR" "MC_INR_Billion" d2 =
            Except.error TransformError.missingRate := by
          simp [convertStep, hmc2b, hI]
        exact ⟨TransformError.missingRate, by
          simp [transform, hs1, hs2, hs3, Except.bind]⟩

theorem claim_C4_witness :
    colIdx dfX.columns mcColName = some 1 ∧
    lookupRate ratesNoINR "INR" = none ∧
    ∃ er, transform dfX ratesNoINR = Except.error er :=
  ⟨by decide, by decide,
    claim_C4 dfX ratesNoINR 1 (by decide) (Or.inr (Or.inr (by decide)))⟩

/-- Claim C8: `transform` does not mutate its argument — in this pure
embedding the caller's table is a value the function cannot change, and the
checkable content is that the result is a fresh frame carrying the input's
rows: same row count, and every column other than the three derived ones
reads unchanged, row by row. -/
theorem claim_C8 (df df2 : DataFrame) (rates : List (String × ℚ))
    (hwf : Wf df) (h : transform df rates = Except.ok df2) :
    df2.rows.length = df.rows.length ∧
    (∀ n, n ≠ "MC_GBP_Billion" → n ≠ "MC_EUR_Billion" → n ≠ "MC_INR_Billion" →
      ∀ k, colCell df2 n k = colCell df n k) := by
  obtain ⟨j, g, e, i, vs, hmc, hg, he, hi, hvs⟩ := transform_ok_inv h
  obtain ⟨d3, hok, -, hlen, hother, -⟩ := transform_spec hwf hmc hg he hi hvs
  rw [h] at hok
  obtain rfl := Except.ok.inj hok
  exact ⟨hlen, hother⟩

theorem claim_C8_witness :
    Wf dfX ∧
    ∃ df2, transform dfX ratesX = Except.ok df2 ∧
      df2.rows.length = dfX.rows.length ∧
      colCell df2 "Bank name" 0 = colCell dfX "Bank name" 0 := by
  refine ⟨by decide, ?_⟩
  obtain ⟨hlen, hother⟩ := claim_C8 dfX _ ratesX (by decide) rfl
  exact ⟨_, rfl, hlen, hother "Bank name" (by decide) (by decide) (by decide) 0⟩

/-- Claim C9: the rounding applied by `transform` is round-half-to-even —
for any row whose market cap v and any of the three rates make the product
lie exactly halfway between two 2-decimal values m/100 and (m+1)/100, the
derived cell holds the neighbour t/100 with t even (for example a product
of 0.125 yields 0.12, not 0.13). -/
theorem claim_C9 (df df2 : DataFrame) (rates : List (String × ℚ))
    (v g e i : ℚ) (k : Nat)
    (hwf : Wf df)
    (h : transform df rates = Except.ok df2)
    (hg : lookupRate rates "GBP" = some g)
    (he : lookupRate rates "EUR" = some e)
    (hi : lookupRate rates "INR" = some i)
    (hcell : colCell df mcColName k = some (Value.num v)) :
    TieEven v g df2 "MC_GBP_Billion" k ∧
    TieEven v e df2 "MC_EUR_Billion" k ∧
    TieEven v i df2 "MC_INR_Billion" k := by
  obtain ⟨j, g2, e2, i2, vs, hmc, hg2, he2, hi2, hvs⟩ := transform_ok_inv h
  rw [hg] at hg2
  obtain rfl := Option.some.inj hg2
  rw [he] at he2
  obtain rfl := Option.some.inj he2
  rw [hi] at hi2
  obtain rfl := Option.some.inj hi2
  obtain ⟨d3, hok, -, -, -, hself⟩ := transform_spec hwf hmc hg he hi hvs
  rw [h] at hok
  obtain rfl := Except.ok.inj hok
  obtain ⟨j2, r, hj2, hr, hcv⟩ := colCell_some hcell
  rw [hmc] at hj2
  obtain rfl := Option.some.inj hj2
  obtain ⟨b, hb, hvk⟩ := mapM_option_getElem hvs hr
  rw [hcv] at hb
  simp [numCell] at hb
  rw [← hb] at hvk
  obtain ⟨hgc, hec, hic⟩ := hself k v hvk
  refine ⟨?_, ?_, ?_⟩
  · intro m hm
    have hx : v * g * 100 = (m : ℚ) + 1 / 2 := by rw [hm]; ring
    refine ⟨if m % 2 = 0 then m else m + 1, ?_, ?_, ?_⟩
    · split <;> omega
    · split
      · exact Or.inl rfl
      · exact Or.inr rfl
    · rw [hgc, round2_tie (v * g) m hx]
  · intro m hm
    have hx : v * e * 100 = (m : ℚ) + 1 / 2 := by rw [hm]; ring
    refine ⟨if m % 2 = 0 then m else m + 1, ?_, ?_, ?_⟩
    · split <;> omega
    · split
      · exact Or.inl rfl
      · exact Or.inr rfl
    · rw [hec, round2_tie (v * e) m hx]
  · intro m hm
    have hx : v * i * 100 = (m : ℚ) + 1 / 2 := by rw [hm]; ring
    refine ⟨if m % 2 = 0 then m else m + 1, ?_, ?_, ?_⟩
    · split <;> omega
    · split
      · exact Or.inl rfl
      · exact Or.inr rfl
    · rw [hic, round2_tie (v * i) m hx]

/-- Claim C7: writing an enriched table with `load_to_csv` and reading the
file back with `pd.read_csv` yields the same columns and equal cell values
(every numeric cell being exactly decimal, and every text cell not itself
reading as a number — the "modulo type coercion" proviso); the file carries a
header record equal to the column names and one record per row, with no
row-index column. -/
theorem claim_C7 (df : DataFrame)
    (hok : ∀ r ∈ df.rows, ∀ v ∈ r, cellOk v = true) :
    readCsv (loadToCsv df).1 = df ∧
    (loadToCsv df).1.header = df.columns ∧
    (loadToCsv df).1.records.length = df.rows.length := by
  refine ⟨?_, rfl, by simp [loadToCsv, writeCsv]⟩
  show readCsv (writeCsv df) = df
  unfold readCsv writeCsv
  have hrows : (df.rows.map (fun r => r.map renderValue)).map
      (fun r => r.map parseCell) = df.rows := by
    rw [List.map_map]
    have hr : ∀ r ∈ df.rows,
        ((fun r => List.map parseCell r) ∘ fun r => List.map renderValue r) r
          = id r := by
      intro r hrr
      show (r.map renderValue).map parseCell = r
      rw [List.map_map]
      have hcell : ∀ v ∈ r, (parseCell ∘ renderValue) v = id v := by
        intro v hv
        have hco := hok r hrr v hv
        show parseCell (renderValue v) = v
        cases v with
        | num q =>
          show parseCell (renderNum q) = Value.num q
          unfold parseCell
          rw [renderNum_roundtrip hco]
        | str s =>
          show parseCell s = Value.str s
          unfold parseCell
          rw [Option.isNone_iff_eq_none.mp hco]
      rw [List.map_congr_left hcell, List.map_id]
    rw [List.map_congr_left hr, List.map_id]
  rw [hrows]

theorem claim_C7_witness :
    (∀ r ∈ dfCsv.rows, ∀ v ∈ r, cellOk v = true) ∧
    readCsv (loadToCsv dfCsv).1 = dfCsv := by
  have hok : ∀ r ∈ dfCsv.rows, ∀ v ∈ r, cellOk v = true := by decide
  exact ⟨hok, (claim_C7 dfCsv hok).1⟩

theorem claim_C9_witness :
    ∃ df2, transform dfTie ratesTie = Except.ok df2 ∧
      ∃ t : ℤ, t % 2 = 0 ∧ (t = 12 ∨ t = 13) ∧
        colCell df2 "MC_GBP_Billion" 0 = some (Value.num ((t : ℚ) / 100)) := by
  obtain ⟨hA, -, -⟩ :=
    claim_C9 dfTie _ ratesTie 1 (mkRat 1 8) 1 1 0 (by decide) rfl
      (by decide) (by decide) (by decide) (by decide)
  have htie : (1 : ℚ) * mkRat 1 8 = (2 * ((12 : ℤ) : ℚ) + 1) / 200 := by
    rw [Rat.mkRat_eq_div]
    norm_num
  obtain ⟨t, ht0, ht1, ht2⟩ := hA 12 htie
  exact ⟨_, rfl, t, ht0, ht1, ht2⟩

/-- Claim C3: loading the same enriched table twice under the same name leaves
the database exactly as after one load — `to_sql(..., if_exists="replace")`
replaces rather than accumulates, so the stored table equals the loaded table
(same rows, hence same row count) after either one or two loads. -/
theorem claim_C3 (df : DataFrame) (db : Database) (tn : Option String) :
    (loadToDb df (loadToDb df db tn).1 tn).1 = (loadToDb df db tn).1 ∧
    lookupTable (loadToDb df db tn).1 (resolveTableName tn) = some df ∧
    lookupTable (loadToDb df (loadToDb df db tn).1 tn).1 (resolveTableName tn)
      = some df ∧
    (∀ t, lookupTable (loadToDb df (loadToDb df db tn).1 tn).1
        (resolveTableName tn) = some t → t.rows.length = df.rows.length) := by
  unfold loadToDb saveTable lookupTable
  refine ⟨?_, ?_, ?_, ?_⟩
  · simp [List.filter_cons, List.filter_filter]
  · simp [List.find?_cons]
  · simp [List.find?_cons]
  · intro t ht
    simp [List.find?_cons] at ht
    rw [← ht]

theorem claim_C3_witness :
    lookupTable (loadToDb dfX (loadToDb dfX [] none).1 none).1
      (resolveTableName none) = some dfX :=
  (claim_C3 dfX [] none).2.2.1

/-- Claim C5: when the fetched document contains no table matching the
attribute filter, `extract` fails with the parse-level error of
`pd.read_html(str(None))` instead of returning an empty table. -/
theorem claim_C5 (r : HttpResponse) (attribs : Option (List (String × String)))
    (hstatus : r.status < 400)
    (hnone : findTable r.body (resolveAttribs attribs) = none) :
    (extract (some r) attribs).1 = Except.error ExtractError.parse := by
  unfold extract
  simp only [if_neg (by omega : ¬400 ≤ r.status), hnone]

theorem claim_C5_witness :
    (⟨200, []⟩ : HttpResponse).status < 400 ∧
    findTable (⟨200, []⟩ : HttpResponse).body (resolveAttribs none) = none ∧
    (extract (some ⟨200, []⟩) none).1 = Except.error ExtractError.parse :=
  ⟨by decide, by decide, claim_C5 ⟨200, []⟩ none (by decide) (by decide)⟩

/-- Claim C6 counterexample: a run of `extract` that fails (no matching table,
so `pd.read_html` raises) has nevertheless already written the progress log
line, because the source logs on line 43 before parsing on line 44 — so the
log line is not written exactly on success. -/
theorem claim_C6_counterexample :
    (extract (some ⟨200, []⟩) none).1 = Except.error ExtractError.parse ∧
    (extract (some ⟨200, []⟩) none).2 = [extractMsg] := by
  exact ⟨rfl, rfl⟩

/-- Claim C6 (amended): `extract` emits its progress log line exactly when the
HTTP fetch succeeds (a response arrived with status below 400) — in
particular the line is emitted before the tabular parse, so every successful
run has emitted it before returning, but a run that fails at the
no-matching-table parse step has emitted it too; only fetch-stage failures
emit nothing. -/
theorem claim_C6 (resp : Option HttpResponse)
    (attribs : Option (List (String × String))) :
    (extract resp attribs).2 = (if fetchOk resp then [extractMsg] else []) ∧
    (∀ df, (extract resp attribs).1 = Except.ok df →
      (extract resp attribs).2 = [extractMsg]) := by
  cases resp with
  | none => exact ⟨rfl, fun df h => by simp [extract] at h⟩
  | some r =>
    have hred : extract (some r) attribs =
        (if 400 ≤ r.status then (Except.error ExtractError.httpStatus, ([] : List String))
         else
           match findTable r.body (resolveAttribs attribs) with
           | none => (Except.error ExtractError.parse, [extractMsg])
           | some t => (Except.ok t.data, [extractMsg])) := rfl
    have hf : fetchOk (some r) = decide (r.status < 400) := rfl
    rw [hred, hf]
    by_cases hs : 400 ≤ r.status
    · rw [if_pos hs]
      constructor
      · have hd : ¬r.status < 400 := by omega
        simp [hd]
      · intro df h
        simp at h
    · rw [if_neg hs]
      have hd : r.status < 400 := by omega
      cases hft : findTable r.body (resolveAttribs attribs) with
      | none =>
        constructor
        · simp [hd]
        · intro df h
          rfl
      | some t =>
        constructor
        · simp [hd]
        · intro df h
          rfl

theorem claim_C6_witness :
    (extract (some ⟨200, [tableW]⟩) none).2 = [extractMsg] :=
  (claim_C6 (some ⟨200, [tableW]⟩) none).2 dfX rfl

/-- Claim C10: falsy arguments trigger the defaults exactly as omitted ones —
`extract` with the empty attribute dict behaves as with `None` (the
`wikitable` filter), and `load_to_db` with the empty table name writes to
`Largest_banks` just as with `None`. -/
theorem claim_C10 :
    (∀ resp, extract resp (some []) = extract resp none) ∧
    (∀ df db, loadToDb df db (some "") = loadToDb df db none) :=
  ⟨fun _ => rfl, fun _ _ => rfl⟩

end Banks
